import Mathlib

/-!
Verification of the Silence-Guided Segmentation Planner of VideoLingo.

This file gives a shallow embedding, over `ℚ`, of the planner code in
`core/split_video_utils/split_video.py` (time values are floats in the
source; we model them as exact rationals) and of the batch upload loop in
`batch/utils/upload_video_2_bilibili/upload_video_2_bilibili.py`, and
proves or refutes the stated properties of the specification.

Naming: Python dict keys become structure fields of the same name, except
that the key `end` (a Lean keyword) is rendered `stop`, and the keys
`type` / `silence_type` of a silence or cut point are both rendered by the
single field `ptype` / `silence_type` as documented on each structure.
-/

/-- A silence interval as produced by `detect_silence_fixed` /
`detect_speech_pauses_fixed`: dict keys `start`, `end` (here `stop`),
`duration`, `center`, and - in the speech-pause variant - `type`
(here `ptype`; the plain silence detector leaves it `""`). -/
structure Silence where
  start : ℚ
  stop : ℚ
  duration : ℚ
  center : ℚ
  ptype : String
deriving DecidableEq

/-- One entry of the `all_results` list built by `detect_speech_pauses_fixed`:
the `config` tuple `(noise_db, min_duration, desc, pause_type)` is flattened
into the first four fields, followed by the `silences` list and the
stored classification counts. -/
structure DetectionResult where
  noise_db : ℚ
  min_duration : ℚ
  desc : String
  pause_type : String
  silences : List Silence
  count : ℕ
  micro : ℕ
  short : ℕ
  medium : ℕ
  long : ℕ
deriving DecidableEq

/-- A cut point dict as built by `find_optimal_speech_cuts_fixed`.
`find_cut_points_from_silences` builds the same dict minus the
`silence_type` and `score` keys (its fallback marker key `type` is stored
in `silence_type` here); for its detected points the two absent keys are
encoded as `silence_type := ""` and `score := 0`. -/
structure CutPoint where
  target : ℚ
  actual : ℚ
  deviation : ℚ
  silence_start : ℚ
  silence_end : ℚ
  silence_duration : ℚ
  silence_type : String
  search_range : ℚ
  score : ℚ
deriving DecidableEq

/-- A segment dict as built by `generate_cut_segments`: keys `index`,
`start`, `end` (here `stop`), `duration`, `cut_type`. -/
structure Segment where
  index : ℕ
  start : ℚ
  stop : ℚ
  duration : ℚ
  cut_type : String
deriving DecidableEq

/-- Zero padding to two digits, modelling the Python format `{m:02d}`
for the non-negative minute values that reach it. -/
def pad2 (n : ℤ) : String :=
  if 0 ≤ n ∧ n < 10 then "0" ++ toString n else toString n

/-- Zero padding to three digits for the millisecond part. -/
def pad3 (n : ℕ) : String :=
  if n < 10 then "00" ++ toString n
  else if n < 100 then "0" ++ toString n
  else toString n

/-- The Python format `{secs:06.3f}` for the second field: three decimal
places, zero filled to width 6. Decimal rounding of the float is modelled
by rounding the rational to the nearest thousandth. -/
def fmt_secs (x : ℚ) : String :=
  let ms : ℤ := round (x * 1000)
  let whole : ℤ := ms / 1000
  let frac : ℕ := (ms % 1000).toNat
  (if whole < 10 then "0" ++ toString whole else toString whole) ++ "." ++ pad3 frac

/-- `format_time` of `split_video.py`: negative inputs render as
`"0:00.000"`; otherwise hours / minutes / seconds are split off with
floor division and rendered with or without the hour field. -/
def format_time (seconds : ℚ) : String :=
  if seconds < 0 then "0:00.000"
  else
    let hours : ℤ := ⌊seconds / 3600⌋
    let minutes : ℤ := ⌊(seconds - 3600 * (⌊seconds / 3600⌋ : ℚ)) / 60⌋
    let secs : ℚ := seconds - 60 * (⌊seconds / 60⌋ : ℚ)
    if 0 < hours then
      toString hours ++ ":" ++ pad2 minutes ++ ":" ++ fmt_secs secs
    else
      toString minutes ++ ":" ++ fmt_secs secs

/-- The target-timestamp loop shared by `find_optimal_speech_cuts_fixed`
and `find_cut_points_from_silences`:
`current = ts; while current < total_duration - 60: append(current); current += ts`.
The source loop diverges when `ts <= 0` (the CLI only produces positive
intervals); the model returns `[]` in that degenerate case, and every
statement about the enumeration assumes `0 < ts`. -/
def tp_aux (ts D c : ℚ) : List ℚ :=
  if h : 0 < ts ∧ c < D - 60 then c :: tp_aux ts D (c + ts) else []
termination_by (⌈(D - 60 - c) / ts⌉).toNat
decreasing_by
  obtain ⟨hts, hc⟩ := h
  have hne : ts ≠ 0 := ne_of_gt hts
  have h1 : (D - 60 - (c + ts)) / ts = (D - 60 - c) / ts - 1 := by
    field_simp
    ring
  rw [h1, Int.ceil_sub_one]
  have h2 : (0 : ℚ) < (D - 60 - c) / ts := div_pos (by linarith) hts
  have h3 : 0 < ⌈(D - 60 - c) / ts⌉ := Int.ceil_pos.mpr h2
  omega

/-- The list of target timestamps `ts, 2*ts, ...` strictly below `D - 60`. -/
def target_points (ts D : ℚ) : List ℚ := tp_aux ts D ts

/-- A scored candidate dict of the per-target search: keys `silence`,
`distance`, `score`. -/
structure Candidate where
  silence : Silence
  distance : ℚ
  score : ℚ
deriving DecidableEq

/-- The comparison realised by the Python key `(-score, distance)` of
`candidates.sort`: higher score first, ties by smaller distance. -/
def cand_le (a b : Candidate) : Prop :=
  b.score < a.score ∨ (a.score = b.score ∧ a.distance ≤ b.distance)

instance cand_le_decidable : DecidableRel cand_le := fun a b =>
  inferInstanceAs (Decidable (_ ∨ _))

/-- Stable insertion into a sorted list: `a` goes in front of the first
element it compares `≤` to, so elements equal under the key keep their
original relative order. -/
def sort_insert {α : Type} (le : α → α → Prop) [DecidableRel le] (a : α) :
    List α → List α
  | [] => [a]
  | b :: l => if le a b then a :: b :: l else b :: sort_insert le a l

/-- Stable sort (insertion sort), modelling Python's stable `list.sort`. -/
def stable_sort {α : Type} (le : α → α → Prop) [DecidableRel le] : List α → List α
  | [] => []
  | a :: l => sort_insert le a (stable_sort le l)

/-- The selection `candidates.sort(key=lambda x: (-x['score'], x['distance']));
best = candidates[0]` of both planners, with the empty case (the `else`
branch that widens the search) as `none`. -/
def select_candidate (cands : List Candidate) : Option Candidate :=
  (stable_sort cand_le cands).head?

/-- The duration factor of the speech-pause score in
`find_optimal_speech_cuts_fixed`. -/
def speech_duration_score (d : ℚ) : ℚ :=
  if 0.1 ≤ d ∧ d ≤ 0.3 then 2
  else if 0.05 ≤ d ∧ d ≤ 0.5 then 1.5
  else 1

/-- The pause-type factor of the speech-pause score. -/
def speech_type_score (t : String) : ℚ :=
  if t = "句间" ∨ t = "自然" ∨ t = "段落" then 1.5
  else if t = "短句" ∨ t = "长句间" then 1.3
  else 1

/-- One scored candidate of `find_optimal_speech_cuts_fixed`:
`total_score = duration_score * distance_score * type_score` with
`distance_score = 1 / (distance + 1)`. -/
def speech_candidate (t : ℚ) (s : Silence) : Candidate :=
  let distance := |s.center - t|
  { silence := s
    distance := distance
    score := speech_duration_score s.duration * (1 / (distance + 1)) * speech_type_score s.ptype }

/-- The candidate loop of one search radius in
`find_optimal_speech_cuts_fixed`: the silences whose `center` lies in
`[max 0 (t - r), min D (t + r)]` are appended, scored, in order. -/
def speech_candidates (silences : List Silence) (D t r : ℚ) : List Candidate :=
  match silences with
  | [] => []
  | s :: rest =>
    if max 0 (t - r) ≤ s.center ∧ s.center ≤ min D (t + r) then
      speech_candidate t s :: speech_candidates rest D t r
    else speech_candidates rest D t r

/-- The fallback cut point of `find_optimal_speech_cuts_fixed`:
`fallback_time = min(target_point + 30, total_duration - 30)`. -/
def speech_fallback (D t : ℚ) : CutPoint :=
  let fallback_time := min (t + 30) (D - 30)
  { target := t
    actual := fallback_time
    deviation := fallback_time - t
    silence_start := fallback_time
    silence_end := fallback_time
    silence_duration := 0
    silence_type := "fallback"
    search_range := 0
    score := 0 }

/-- The expanding-radius loop of `find_optimal_speech_cuts_fixed` for one
target: first radius with a candidate wins, exhaustion falls back. -/
def resolve_speech_ranges (silences : List Silence) (D t : ℚ) : List ℚ → CutPoint
  | [] => speech_fallback D t
  | r :: rs =>
    match select_candidate (speech_candidates silences D t r) with
    | some best =>
      { target := t
        actual := best.silence.center
        deviation := best.silence.center - t
        silence_start := best.silence.start
        silence_end := best.silence.stop
        silence_duration := best.silence.duration
        silence_type := best.silence.ptype
        search_range := r
        score := best.score }
    | none => resolve_speech_ranges silences D t rs

/-- The radii `search_ranges = [15, 30, 60, 120, 300]` of the speech variant. -/
def speech_search_ranges : List ℚ := [15, 30, 60, 120, 300]

/-- The per-target resolution of `find_optimal_speech_cuts_fixed`. -/
def resolve_speech (silences : List Silence) (D t : ℚ) : CutPoint :=
  resolve_speech_ranges silences D t speech_search_ranges

/-- The score of one detection configuration in
`find_optimal_speech_cuts_fixed` (computed only for results with
`count >= 3`). -/
def config_score (r : DetectionResult) : ℚ :=
  (if 5 ≤ r.count ∧ r.count ≤ 30 then 10 else if 3 ≤ r.count then 5 else 0)
  + (r.short : ℚ) * 2 + (r.medium : ℚ) * 1.5 + (r.micro : ℚ) * 1
  + (if -20 ≤ r.noise_db then 3 else if -25 ≤ r.noise_db then 2 else 0)
  + (if 0.05 ≤ r.min_duration ∧ r.min_duration ≤ 0.15 then 3
     else if 0.05 ≤ r.min_duration ∧ r.min_duration ≤ 0.2 then 2 else 0)

/-- The best-configuration loop of `find_optimal_speech_cuts_fixed`:
results with fewer than 3 pauses are skipped, otherwise the first result
attaining the running strict maximum of `config_score` is kept. -/
def best_result_loop : Option DetectionResult → List DetectionResult → Option DetectionResult
  | best, [] => best
  | best, r :: rs =>
    if 3 ≤ r.count then
      match best with
      | none => best_result_loop (some r) rs
      | some b =>
        if config_score b < config_score r then best_result_loop (some r) rs
        else best_result_loop best rs
    else best_result_loop best rs

/-- The selected best detection result (or `none`). -/
def best_result (results : List DetectionResult) : Option DetectionResult :=
  best_result_loop none results

/-- `find_optimal_speech_cuts_fixed` of `split_video.py`. The Python guard
`if not total_duration` (`None` or `0.0`) is modelled as `total_duration = 0`. -/
def find_optimal_speech_cuts_fixed (all_results : List DetectionResult)
    (target_interval_minutes : ℚ) (total_duration : ℚ) : List CutPoint :=
  if total_duration = 0 then []
  else
    match best_result all_results with
    | none => []
    | some best =>
      let target_seconds := target_interval_minutes * 60
      let targets := target_points target_seconds total_duration
      if targets = [] then []
      else targets.map (resolve_speech best.silences total_duration)

/-- One scored candidate of `find_cut_points_from_silences`:
`score = silence['duration'] / (distance + 1)`. -/
def silence_candidate (t : ℚ) (s : Silence) : Candidate :=
  let distance := |s.center - t|
  { silence := s
    distance := distance
    score := s.duration / (distance + 1) }

/-- The candidate loop of one search radius in `find_cut_points_from_silences`. -/
def silence_candidates (silences : List Silence) (D t r : ℚ) : List Candidate :=
  match silences with
  | [] => []
  | s :: rest =>
    if max 0 (t - r) ≤ s.center ∧ s.center ≤ min D (t + r) then
      silence_candidate t s :: silence_candidates rest D t r
    else silence_candidates rest D t r

/-- The fallback cut point of `find_cut_points_from_silences`:
`fallback_time = min(target_point + 60, total_duration - 60)`, marked
with the dict key `type = 'fallback'` (field `silence_type` here). -/
def silence_fallback (D t : ℚ) : CutPoint :=
  let fallback_time := min (t + 60) (D - 60)
  { target := t
    actual := fallback_time
    deviation := fallback_time - t
    silence_start := fallback_time
    silence_end := fallback_time
    silence_duration := 0
    silence_type := "fallback"
    search_range := 0
    score := 0 }

/-- The expanding-radius loop of `find_cut_points_from_silences`. A detected
point has no `type` or `score` dict key in the source; those fields are
encoded as `""` and `0`. -/
def resolve_silence_ranges (silences : List Silence) (D t : ℚ) : List ℚ → CutPoint
  | [] => silence_fallback D t
  | r :: rs =>
    match select_candidate (silence_candidates silences D t r) with
    | some best =>
      { target := t
        actual := best.silence.center
        deviation := best.silence.center - t
        silence_start := best.silence.start
        silence_end := best.silence.stop
        silence_duration := best.silence.duration
        silence_type := ""
        search_range := r
        score := 0 }
    | none => resolve_silence_ranges silences D t rs

/-- The radii `search_ranges = [30, 60, 120, 300, 600]` of the silence variant. -/
def silence_search_ranges : List ℚ := [30, 60, 120, 300, 600]

/-- The per-target resolution of `find_cut_points_from_silences`. -/
def resolve_silence (silences : List Silence) (D t : ℚ) : CutPoint :=
  resolve_silence_ranges silences D t silence_search_ranges

/-- `find_cut_points_from_silences` of `split_video.py`. -/
def find_cut_points_from_silences (silences : List Silence)
    (target_interval_minutes : ℚ) (total_duration : ℚ) : List CutPoint :=
  if total_duration = 0 then []
  else
    let targets := target_points (target_interval_minutes * 60) total_duration
    if targets = [] then []
    else targets.map (resolve_silence silences total_duration)

/-- The middle-and-final part of `generate_cut_segments`: one segment from
each cut point to the next, then the final segment up to `total_duration`. -/
def gen_segments_go (total_duration : ℚ) : ℕ → CutPoint → List CutPoint → List Segment
  | i, prev, [] =>
    [{ index := i
       start := prev.actual
       stop := total_duration
       duration := total_duration - prev.actual
       cut_type := "end" }]
  | i, prev, c :: cs =>
    { index := i
      start := prev.actual
      stop := c.actual
      duration := c.actual - prev.actual
      cut_type := "middle" } :: gen_segments_go total_duration (i + 1) c cs

/-- `generate_cut_segments` of `split_video.py`: first segment from 0 to the
first cut point, middle segments between consecutive cut points, final
segment up to `total_duration`; with no cut points, one `whole` segment. -/
def generate_cut_segments (cut_points : List CutPoint) (total_duration : ℚ) : List Segment :=
  match cut_points with
  | [] =>
    [{ index := 1
       start := 0
       stop := total_duration
       duration := total_duration
       cut_type := "whole" }]
  | c :: cs =>
    { index := 1
      start := 0
      stop := c.actual
      duration := c.actual
      cut_type := "start" } :: gen_segments_go total_duration 2 c cs

/-- One row of the upload spreadsheet read by `method3_upload_from_excel`:
the `Status` column plus the payload columns passed to `method1_upload`
(all read back as strings by the source). -/
structure UploadRow where
  status : String
  video_path : String
  title : String
  tags : String
  introduction : String
deriving DecidableEq

/-- Python `str.strip()` on the surrounding whitespace, modelled directly
on the character list. -/
def py_strip (s : String) : String :=
  String.mk (((s.toList.dropWhile Char.isWhitespace).reverse.dropWhile
    Char.isWhitespace).reverse)

/-- Python `str.lower()`, modelled character by character. -/
def py_lower (s : String) : String :=
  String.mk (s.toList.map Char.toLower)

/-- The error-message cleanup of the `except` branch of
`method3_upload_from_excel`: drop the control characters of the ranges
x00-x08, x0b-x0c, x0e-x1f, turn newlines into spaces, and strip. -/
def sanitize_error (s : String) : String :=
  let cleaned := s.toList.filter
    (fun c => !(decide (c.toNat ≤ 8 ∨ c.toNat = 11 ∨ c.toNat = 12
      ∨ (14 ≤ c.toNat ∧ c.toNat ≤ 31))))
  let replaced := cleaned.map (fun c => if c = '\n' then ' ' else c)
  py_strip (String.mk replaced)

/-- The body of one iteration of the row loop of `method3_upload_from_excel`:
a row whose `Status` cell already reads `done` (stripped, lowercased) is
skipped and keeps its cell; otherwise the upload of that row is attempted
(the external `method1_upload` call and everything that can raise inside
the `try` block is abstracted as the oracle `upload`, indexed by the row
position) and the cell is set to `"Done"` or to the sanitised error. -/
def row_outcome (upload : ℕ → Except String Unit) (idx : ℕ) (row : UploadRow) : String :=
  if py_lower (py_strip row.status) = "done" then row.status
  else
    match upload idx with
    | Except.ok _ => "Done"
    | Except.error e => "Error: " ++ sanitize_error e

/-- The row loop of `method3_upload_from_excel`, started at row index 0:
every row is visited in index order and its resulting `Status` cell is
returned; no outcome of an earlier row interrupts the loop (the source
catches every exception of the row body). The per-row spreadsheet write of
the `finally` block is outside the model. -/
def method3_upload_from_excel (upload : ℕ → Except String Unit) :
    ℕ → List UploadRow → List String
  | _, [] => []
  | idx, row :: rest =>
    row_outcome upload idx row :: method3_upload_from_excel upload (idx + 1) rest

/-- Modelled from the spec: the `ProgressState` record of section 3; the
repository has no persistence code under `src/`, so this entity and the
resumable planner below are taken from the specification text. -/
structure ProgressState where
  sourcePath : String
  totalDuration : ℚ
  targetIntervalSec : ℚ
  completedCutPoints : List CutPoint
deriving DecidableEq

/-- Modelled from the spec: the `CutPlan` record of section 3. -/
structure CutPlan where
  sourcePath : String
  totalDuration : ℚ
  targetIntervalSec : ℚ
  cutPoints : List CutPoint
  segments : List Segment
deriving DecidableEq

/-- Modelled from the spec: the resume-match check of section 4.3 step 3 -
same source path and total duration within a tolerance of 1 second. -/
def progress_matches (st : ProgressState) (sourcePath : String) (D : ℚ) : Bool :=
  decide (st.sourcePath = sourcePath ∧ |st.totalDuration - D| < 1)

/-- Modelled from the spec: the Segmentation Planner of section 4.3 with a
deterministic Cut-Point Resolver test double `resolve`. Target timestamps
are `i * I` while below `D - 60` (the enumeration the code also uses); a
matching saved `ProgressState` is resumed from `len(completedCutPoints)`,
a mismatching one is discarded; the remaining targets are resolved in
order and segments derived from the full cut-point list. -/
def plan_with_resume (resolve : ℚ → CutPoint) (sourcePath : String) (D I : ℚ)
    (saved : Option ProgressState) : CutPlan :=
  let targets := target_points I D
  let completed :=
    match saved with
    | some st => if progress_matches st sourcePath D then st.completedCutPoints else []
    | none => []
  let pts := completed ++ (targets.drop completed.length).map resolve
  { sourcePath := sourcePath
    totalDuration := D
    targetIntervalSec := I
    cutPoints := pts
    segments := generate_cut_segments pts D }

/-- A detection result with only two recorded pauses, for the C9 witness. -/
def c9_example_result : DetectionResult :=
  { noise_db := -15
    min_duration := 0.05
    desc := "词间停顿(-15dB, 50ms)"
    pause_type := "词间"
    silences := []
    count := 2
    micro := 0
    short := 1
    medium := 1
    long := 0 }

/-- The single silence of the C1 counterexample, centred at 80 seconds. -/
def c1_example_silence : Silence :=
  { start := 79.5, stop := 80.5, duration := 1, center := 80, ptype := "" }

/-- A silence payload for the C7 witness candidates. -/
def c7_example_silence : Silence :=
  { start := 0, stop := 1, duration := 1, center := 0.5, ptype := "" }

/-- First C7 witness candidate: score 2, distance 5. -/
def c7_cand1 : Candidate :=
  { silence := c7_example_silence, distance := 5, score := 2 }

/-- Second C7 witness candidate: same score 2, smaller distance 3. -/
def c7_cand2 : Candidate :=
  { silence := c7_example_silence, distance := 3, score := 2 }

/-- The upload oracle of the C8 witness: the first row's upload raises,
every later row succeeds. -/
def c8_upload : ℕ → Except String Unit :=
  fun j => if j = 0 then Except.error "boom" else Except.ok ()

/-- The two-row spreadsheet of the C8 witness, both rows still unprocessed. -/
def c8_rows : List UploadRow :=
  [{ status := "", video_path := "a.mp4", title := "t1", tags := "", introduction := "" },
   { status := "", video_path := "b.mp4", title := "t2", tags := "", introduction := "" }]

/-- The deterministic resolver test double of the C3 witness: each target
resolves to a cut point at the target itself. -/
def c3_resolve : ℚ → CutPoint := fun t =>
  { target := t
    actual := t
    deviation := 0
    silence_start := t
    silence_end := t
    silence_duration := 0
    silence_type := ""
    search_range := 0
    score := 0 }

theorem tp_aux_pos {ts D c : ℚ} (h : 0 < ts ∧ c < D - 60) :
    tp_aux ts D c = c :: tp_aux ts D (c + ts) := by
  rw [tp_aux, dif_pos h]

theorem tp_aux_neg {ts D c : ℚ} (h : ¬(0 < ts ∧ c < D - 60)) :
    tp_aux ts D c = [] := by
  rw [tp_aux, dif_neg h]

theorem tp_aux_head {ts D c : ℚ} : ∀ y ∈ (tp_aux ts D c).head?, y = c := by
  intro y hy
  by_cases h : 0 < ts ∧ c < D - 60
  · rw [tp_aux_pos h] at hy
    simpa using hy.symm
  · rw [tp_aux_neg h] at hy
    simp at hy

theorem tp_aux_mem_lt {ts D : ℚ} : ∀ c, ∀ t ∈ tp_aux ts D c, t < D - 60 := by
  refine tp_aux.induct ts D (fun c => ∀ t ∈ tp_aux ts D c, t < D - 60) ?_ ?_
  · intro c hc ih t ht
    rw [tp_aux_pos hc] at ht
    rcases List.mem_cons.mp ht with h | h
    · exact h ▸ hc.2
    · exact ih t h
  · intro c hc t ht
    rw [tp_aux_neg hc] at ht
    simp at ht

theorem tp_aux_chain {ts D : ℚ} : ∀ c, List.Chain' (· < ·) (tp_aux ts D c) := by
  refine tp_aux.induct ts D (fun c => List.Chain' (· < ·) (tp_aux ts D c)) ?_ ?_
  · intro c hc ih
    rw [tp_aux_pos hc]
    refine List.chain'_cons'.mpr ⟨?_, ih⟩
    intro y hy
    have hyc := tp_aux_head y hy
    rw [hyc]
    linarith [hc.1]
  · intro c hc
    rw [tp_aux_neg hc]
    exact List.chain'_nil

theorem tp_aux_length {ts D : ℚ} (hts : 0 < ts) :
    ∀ c, (tp_aux ts D c).length = (⌈(D - 60 - c) / ts⌉).toNat := by
  refine tp_aux.induct ts D (fun c => (tp_aux ts D c).length = (⌈(D - 60 - c) / ts⌉).toNat) ?_ ?_
  · intro c hc ih
    rw [tp_aux_pos hc]
    have hne : ts ≠ 0 := ne_of_gt hc.1
    have h1 : (D - 60 - (c + ts)) / ts = (D - 60 - c) / ts - 1 := by
      field_simp
      ring
    have h2 : (0 : ℚ) < (D - 60 - c) / ts := div_pos (by linarith [hc.2]) hc.1
    have h3 : 0 < ⌈(D - 60 - c) / ts⌉ := Int.ceil_pos.mpr h2
    rw [List.length_cons, ih, h1, Int.ceil_sub_one]
    omega
  · intro c hc
    rw [tp_aux_neg hc]
    have h2 : D - 60 - c ≤ 0 := by
      by_contra hcon
      exact hc ⟨hts, by linarith⟩
    have h3 : (D - 60 - c) / ts ≤ 0 := div_nonpos_iff.mpr (Or.inr ⟨h2, hts.le⟩)
    have h4 : ⌈(D - 60 - c) / ts⌉ ≤ 0 := Int.ceil_le.mpr (by exact_mod_cast h3)
    simp only [List.length_nil]
    omega

theorem target_points_chain (ts D : ℚ) : List.Chain' (· < ·) (target_points ts D) :=
  tp_aux_chain ts

theorem target_points_mem_lt {ts D t : ℚ} (h : t ∈ target_points ts D) : t < D - 60 :=
  tp_aux_mem_lt ts t h

theorem target_points_length {ts D : ℚ} (hts : 0 < ts) :
    (target_points ts D).length = (⌈(D - 60) / ts⌉ - 1).toNat := by
  have hne : ts ≠ 0 := ne_of_gt hts
  have h1 : (D - 60 - ts) / ts = (D - 60) / ts - 1 := by
    field_simp
  rw [target_points, tp_aux_length hts, h1, Int.ceil_sub_one]

theorem target_points_of_short {ts D : ℚ} (h : D ≤ ts) : target_points ts D = [] := by
  rw [target_points]
  refine tp_aux_neg ?_
  rintro ⟨_, h2⟩
  linarith

/-- C10: for every negative input, `format_time` returns the literal
string `"0:00.000"` (the guard branch of the source); being a total Lean
function, the model never raises. -/
theorem claim_c10_format_time_negative (seconds : ℚ) (h : seconds < 0) :
    format_time seconds = "0:00.000" := by
  rw [format_time, if_pos h]

theorem claim_c10_witness :
    (-5 : ℚ) < 0 ∧ format_time (-5) = "0:00.000" :=
  ⟨by norm_num, claim_c10_format_time_negative (-5) (by norm_num)⟩

/-- C5 (amended): for a positive interval the enumeration produces
`⌈(D - 60) / ts⌉ - 1` target timestamps (clamped at zero), i.e. the number
of positive multiples of `ts` strictly below `D - 60`. This coincides with
the claimed `⌊(D - 60) / ts⌋` exactly when `ts` does not divide `D - 60`;
at exact multiples the strict `<` of the loop produces one timestamp fewer
than the claim states. -/
theorem claim_c5_target_count (ts D : ℚ) (hts : 0 < ts) :
    (target_points ts D).length = (⌈(D - 60) / ts⌉ - 1).toNat :=
  target_points_length hts

theorem tp_eval_1800_3660 : target_points 1800 3660 = [1800] := by
  rw [target_points, tp_aux, dif_pos (by norm_num), tp_aux, dif_neg (by norm_num)]

/-- C5 counterexample: at `D = 3660`, `ts = 1800` the loop emits the single
timestamp 1800 (3600 is not strictly below `D - 60 = 3600`), while the
claimed count `⌊(D - 60) / ts⌋` is 2. -/
theorem claim_c5_counterexample :
    ¬ ((target_points 1800 3660).length = (⌊((3660 : ℚ) - 60) / 1800⌋).toNat) := by
  rw [tp_eval_1800_3660]
  have h : ((3660 : ℚ) - 60) / 1800 = 2 := by norm_num
  rw [h]
  decide

theorem claim_c5_witness :
    (0 : ℚ) < 1800 ∧
      (target_points 1800 3700).length = (⌈((3700 : ℚ) - 60) / 1800⌉ - 1).toNat :=
  ⟨by norm_num, claim_c5_target_count 1800 3700 (by norm_num)⟩

/-- C4: when the total duration is at most the target interval
(`target_interval_minutes * 60` seconds), both planners return zero cut
points, and deriving segments from the empty cut-point list yields the
single `whole` segment spanning `[0, D)`. -/
theorem claim_c4_short_video (all_results : List DetectionResult) (silences : List Silence)
    (m D : ℚ) (h : D ≤ m * 60) :
    find_optimal_speech_cuts_fixed all_results m D = [] ∧
    find_cut_points_from_silences silences m D = [] ∧
    generate_cut_segments [] D =
      [{ index := 1, start := 0, stop := D, duration := D, cut_type := "whole" }] := by
  have htp : target_points (m * 60) D = [] := target_points_of_short h
  refine ⟨?_, ?_, rfl⟩
  · rw [find_optimal_speech_cuts_fixed]
    by_cases hD : D = 0
    · rw [if_pos hD]
    · rw [if_neg hD]
      cases hb : best_result all_results with
      | none => rfl
      | some b =>
        simp [htp]
  · rw [find_cut_points_from_silences]
    by_cases hD : D = 0
    · rw [if_pos hD]
    · rw [if_neg hD]
      simp [htp]

theorem claim_c4_witness :
    (30 : ℚ) ≤ 1 * 60 ∧
      find_optimal_speech_cuts_fixed [] 1 30 = [] ∧
      find_cut_points_from_silences [] 1 30 = [] ∧
      generate_cut_segments [] 30 =
        [{ index := 1, start := 0, stop := 30, duration := 30, cut_type := "whole" }] :=
  ⟨by norm_num, claim_c4_short_video [] [] 1 30 (by norm_num)⟩

theorem best_result_loop_skip :
    ∀ (rs : List DetectionResult) (b : Option DetectionResult),
      (∀ r ∈ rs, r.count < 3) → best_result_loop b rs = b := by
  intro rs
  induction rs with
  | nil => intro b _; rfl
  | cons r rs ih =>
    intro b h
    have hr : r.count < 3 := h r (List.mem_cons_self r rs)
    simp only [best_result_loop]
    rw [if_neg (by omega)]
    exact ih b (fun x hx => h x (List.mem_cons_of_mem r hx))

/-- C9: when every detection result records fewer than 3 silence periods,
no configuration is selected and `find_optimal_speech_cuts_fixed` returns
the empty list, whatever the total duration and target interval. -/
theorem claim_c9_no_config (all_results : List DetectionResult) (m D : ℚ)
    (h : ∀ r ∈ all_results, r.count < 3) :
    find_optimal_speech_cuts_fixed all_results m D = [] := by
  have hb : best_result all_results = none := best_result_loop_skip all_results none h
  rw [find_optimal_speech_cuts_fixed]
  by_cases hD : D = 0
  · rw [if_pos hD]
  · rw [if_neg hD, hb]

theorem claim_c9_witness :
    c9_example_result.count < 3 ∧
      find_optimal_speech_cuts_fixed [c9_example_result] 30 3700 = [] :=
  ⟨by decide, claim_c9_no_config [c9_example_result] 30 3700 (by decide)⟩

theorem gen_segments_go_length (D : ℚ) :
    ∀ (cs : List CutPoint) (i : ℕ) (prev : CutPoint),
      (gen_segments_go D i prev cs).length = cs.length + 1 := by
  intro cs
  induction cs with
  | nil => intro i prev; rfl
  | cons c cs ih =>
    intro i prev
    simp only [gen_segments_go, List.length_cons, ih]

theorem gen_segments_go_head (D : ℚ) :
    ∀ (cs : List CutPoint) (i : ℕ) (prev : CutPoint),
      ∃ s rest, gen_segments_go D i prev cs = s :: rest ∧ s.start = prev.actual := by
  intro cs i prev
  cases cs with
  | nil => exact ⟨_, _, rfl, rfl⟩
  | cons c cs => exact ⟨_, _, rfl, rfl⟩

theorem gen_segments_go_last (D : ℚ) :
    ∀ (cs : List CutPoint) (i : ℕ) (prev : CutPoint),
      ((gen_segments_go D i prev cs).getLast?).map Segment.stop = some D := by
  intro cs
  induction cs with
  | nil => intro i prev; rfl
  | cons c cs ih =>
    intro i prev
    obtain ⟨s, rest, heq, _⟩ := gen_segments_go_head D cs (i + 1) c
    simp only [gen_segments_go, heq, List.getLast?_cons_cons]
    rw [← heq]
    exact ih (i + 1) c

theorem gen_segments_go_chain (D : ℚ) :
    ∀ (cs : List CutPoint) (i : ℕ) (prev : CutPoint),
      List.Chain' (fun a b => a.stop = b.start) (gen_segments_go D i prev cs) := by
  intro cs
  induction cs with
  | nil => intro i prev; simp [gen_segments_go]
  | cons c cs ih =>
    intro i prev
    simp only [gen_segments_go]
    refine List.chain'_cons'.mpr ⟨?_, ih (i + 1) c⟩
    intro y hy
    obtain ⟨s, rest, heq, hstart⟩ := gen_segments_go_head D cs (i + 1) c
    rw [heq] at hy
    simp only [List.head?_cons, Option.mem_def, Option.some.injEq] at hy
    rw [hy] at hstart
    exact hstart.symm

/-- C2: `generate_cut_segments` always returns `len(cut_points) + 1`
segments, the first starting at 0, the last ending at `total_duration`,
and each segment ending where the next one starts. -/
theorem claim_c2_segments_contiguous (cut_points : List CutPoint) (D : ℚ) :
    (generate_cut_segments cut_points D).length = cut_points.length + 1 ∧
    (generate_cut_segments cut_points D).head?.map Segment.start = some 0 ∧
    ((generate_cut_segments cut_points D).getLast?).map Segment.stop = some D ∧
    List.Chain' (fun a b => a.stop = b.start) (generate_cut_segments cut_points D) := by
  cases cut_points with
  | nil => exact ⟨rfl, rfl, rfl, by simp [generate_cut_segments]⟩
  | cons c cs =>
    refine ⟨?_, rfl, ?_, ?_⟩
    · simp only [generate_cut_segments, List.length_cons, gen_segments_go_length]
    · obtain ⟨s, rest, heq, _⟩ := gen_segments_go_head D cs 2 c
      simp only [generate_cut_segments, heq, List.getLast?_cons_cons]
      rw [← heq]
      exact gen_segments_go_last D cs 2 c
    · simp only [generate_cut_segments]
      refine List.chain'_cons'.mpr ⟨?_, gen_segments_go_chain D cs 2 c⟩
      intro y hy
      obtain ⟨s, rest, heq, hstart⟩ := gen_segments_go_head D cs 2 c
      rw [heq] at hy
      simp only [List.head?_cons, Option.mem_def, Option.some.injEq] at hy
      rw [hy] at hstart
      exact hstart.symm

theorem resolve_speech_ranges_target (silences : List Silence) (D t : ℚ) :
    ∀ rs, (resolve_speech_ranges silences D t rs).target = t := by
  intro rs
  induction rs with
  | nil => rfl
  | cons r rs ih =>
    cases h : select_candidate (speech_candidates silences D t r) with
    | none => simp [resolve_speech_ranges, h, ih]
    | some b => simp [resolve_speech_ranges, h]

theorem resolve_silence_ranges_target (silences : List Silence) (D t : ℚ) :
    ∀ rs, (resolve_silence_ranges silences D t rs).target = t := by
  intro rs
  induction rs with
  | nil => rfl
  | cons r rs ih =>
    cases h : select_candidate (silence_candidates silences D t r) with
    | none => simp [resolve_silence_ranges, h, ih]
    | some b => simp [resolve_silence_ranges, h]

theorem map_target_resolve_speech (silences : List Silence) (D : ℚ) (targets : List ℚ) :
    (targets.map (resolve_speech silences D)).map CutPoint.target = targets := by
  induction targets with
  | nil => rfl
  | cons t ts ih => simp [resolve_speech, resolve_speech_ranges_target, ih]

theorem map_target_resolve_silence (silences : List Silence) (D : ℚ) (targets : List ℚ) :
    (targets.map (resolve_silence silences D)).map CutPoint.target = targets := by
  induction targets with
  | nil => rfl
  | cons t ts ih => simp [resolve_silence, resolve_silence_ranges_target, ih]

theorem find_cut_points_eq (silences : List Silence) (m D : ℚ) (hD : D ≠ 0)
    (h : target_points (m * 60) D ≠ []) :
    find_cut_points_from_silences silences m D =
      (target_points (m * 60) D).map (resolve_silence silences D) := by
  rw [find_cut_points_from_silences, if_neg hD]
  simp only [if_neg h]

theorem find_optimal_eq (all_results : List DetectionResult) (m D : ℚ) (b : DetectionResult)
    (hD : D ≠ 0) (hb : best_result all_results = some b)
    (h : target_points (m * 60) D ≠ []) :
    find_optimal_speech_cuts_fixed all_results m D =
      (target_points (m * 60) D).map (resolve_speech b.silences D) := by
  rw [find_optimal_speech_cuts_fixed, if_neg hD, hb]
  simp only [if_neg h]

/-- C1 (amended): along a planning run of either planner the `target`
values of the produced cut points are strictly increasing; the `actual`
values are NOT guaranteed strictly increasing (two consecutive targets can
resolve to the same silence, see the counterexample), so neither
non-overlap nor positive duration of the derived segments is guaranteed. -/
theorem claim_c1_target_strict_mono (silences : List Silence)
    (all_results : List DetectionResult) (m D : ℚ) :
    List.Chain' (· < ·) ((find_cut_points_from_silences silences m D).map CutPoint.target) ∧
    List.Chain' (· < ·) ((find_optimal_speech_cuts_fixed all_results m D).map CutPoint.target) := by
  constructor
  · by_cases hD : D = 0
    · simp [find_cut_points_from_silences, hD]
    · by_cases htp : target_points (m * 60) D = []
      · rw [find_cut_points_from_silences, if_neg hD]
        simp [htp]
      · rw [find_cut_points_eq silences m D hD htp, map_target_resolve_silence]
        exact target_points_chain _ _
  · by_cases hD : D = 0
    · simp [find_optimal_speech_cuts_fixed, hD]
    · cases hb : best_result all_results with
      | none =>
        rw [find_optimal_speech_cuts_fixed, if_neg hD, hb]
        simp
      | some b =>
        by_cases htp : target_points (m * 60) D = []
        · rw [find_optimal_speech_cuts_fixed, if_neg hD, hb]
          simp [htp]
        · rw [find_optimal_eq all_results m D b hD hb htp, map_target_resolve_speech]
          exact target_points_chain _ _

theorem tp_eval_60_181 : target_points 60 181 = [60, 120] := by
  rw [target_points, tp_aux, dif_pos (by norm_num), tp_aux, dif_pos (by norm_num),
    tp_aux, dif_neg (by norm_num)]
  norm_num

/-- C1 counterexample: with a 1-minute interval over a 181-second input and
a single silence centred at 80s, targets 60 and 120 both resolve to
`actual = 80` (radius 30 and radius 60 respectively), so the `actual`
sequence `[80, 80]` is not strictly increasing and the claim as stated is
false. -/
theorem claim_c1_counterexample :
    ¬ List.Chain' (· < ·)
      ((find_cut_points_from_silences [c1_example_silence] 1 181).map CutPoint.actual) := by
  have h60 : ((1 : ℚ) * 60) = 60 := by norm_num
  have h : find_cut_points_from_silences [c1_example_silence] 1 181 =
      (target_points (1 * 60) 181).map (resolve_silence [c1_example_silence] 181) := by
    refine find_cut_points_eq [c1_example_silence] 1 181 (by norm_num) ?_
    rw [h60, tp_eval_60_181]
    simp
  rw [h, h60, tp_eval_60_181]
  have hl : (([60, 120] : List ℚ).map (resolve_silence [c1_example_silence] 181)).map
      CutPoint.actual = [80, 80] := by
    norm_num [resolve_silence, resolve_silence_ranges, silence_search_ranges, select_candidate,
      stable_sort, sort_insert, silence_candidates, silence_candidate, c1_example_silence,
      max_def, min_def]
  rw [hl]
  simp [List.chain'_cons]

theorem select_candidate_nil : select_candidate [] = none := rfl

theorem resolve_speech_ranges_of_empty (silences : List Silence) (D t : ℚ) :
    ∀ rs, (∀ r ∈ rs, speech_candidates silences D t r = []) →
      resolve_speech_ranges silences D t rs = speech_fallback D t := by
  intro rs
  induction rs with
  | nil => intro _; rfl
  | cons r rs ih =>
    intro h
    have h0 : speech_candidates silences D t r = [] := h r (List.mem_cons_self r rs)
    simp only [resolve_speech_ranges, h0, select_candidate_nil]
    exact ih fun x hx => h x (List.mem_cons_of_mem r hx)

theorem resolve_silence_ranges_of_empty (silences : List Silence) (D t : ℚ) :
    ∀ rs, (∀ r ∈ rs, silence_candidates silences D t r = []) →
      resolve_silence_ranges silences D t rs = silence_fallback D t := by
  intro rs
  induction rs with
  | nil => intro _; rfl
  | cons r rs ih =>
    intro h
    have h0 : silence_candidates silences D t r = [] := h r (List.mem_cons_self r rs)
    simp only [resolve_silence_ranges, h0, select_candidate_nil]
    exact ih fun x hx => h x (List.mem_cons_of_mem r hx)

/-- C6: at a target timestamp of the enumeration where every search radius
yields an empty candidate set (in particular when the detector returned no
intervals at all), both resolvers emit the fallback cut point: marked
`fallback`, with `actual = min(target + offset, D - tail)` for offset and
tail 30 (speech variant) resp. 60 (silence variant), and this `actual`
lies within `[target, D - tail]`. -/
theorem claim_c6_fallback (silences : List Silence) (ts D t : ℚ)
    (hmem : t ∈ target_points ts D)
    (hs : ∀ r ∈ speech_search_ranges, speech_candidates silences D t r = [])
    (hq : ∀ r ∈ silence_search_ranges, silence_candidates silences D t r = []) :
    resolve_speech silences D t = speech_fallback D t ∧
    (resolve_speech silences D t).silence_type = "fallback" ∧
    (resolve_speech silences D t).actual = min (t + 30) (D - 30) ∧
    t ≤ (resolve_speech silences D t).actual ∧
    (resolve_speech silences D t).actual ≤ D - 30 ∧
    resolve_silence silences D t = silence_fallback D t ∧
    (resolve_silence silences D t).silence_type = "fallback" ∧
    (resolve_silence silences D t).actual = min (t + 60) (D - 60) ∧
    t ≤ (resolve_silence silences D t).actual ∧
    (resolve_silence silences D t).actual ≤ D - 60 := by
  have ht : t < D - 60 := target_points_mem_lt hmem
  have e1 : resolve_speech silences D t = speech_fallback D t :=
    resolve_speech_ranges_of_empty silences D t speech_search_ranges hs
  have e2 : resolve_silence silences D t = silence_fallback D t :=
    resolve_silence_ranges_of_empty silences D t silence_search_ranges hq
  refine ⟨e1, ?_, ?_, ?_, ?_, e2, ?_, ?_, ?_, ?_⟩
  · rw [e1]; rfl
  · rw [e1]; rfl
  · rw [e1]
    show t ≤ min (t + 30) (D - 30)
    exact le_min (by linarith) (by linarith)
  · rw [e1]
    show min (t + 30) (D - 30) ≤ D - 30
    exact min_le_right _ _
  · rw [e2]; rfl
  · rw [e2]; rfl
  · rw [e2]
    show t ≤ min (t + 60) (D - 60)
    exact le_min (by linarith) (by linarith)
  · rw [e2]
    show min (t + 60) (D - 60) ≤ D - 60
    exact min_le_right _ _

theorem tp_eval_60_200 : target_points 60 200 = [60, 120] := by
  rw [target_points, tp_aux, dif_pos (by norm_num), tp_aux, dif_pos (by norm_num),
    tp_aux, dif_neg (by norm_num)]
  norm_num

theorem claim_c6_witness :
    (60 : ℚ) ∈ target_points 60 200 ∧
    resolve_speech [] 200 60 = speech_fallback 200 60 ∧
    (resolve_speech [] 200 60).actual = min (60 + 30) (200 - 30) ∧
    resolve_silence [] 200 60 = silence_fallback 200 60 ∧
    (resolve_silence [] 200 60).actual = min (60 + 60) (200 - 60) := by
  have hmem : (60 : ℚ) ∈ target_points 60 200 := by
    rw [tp_eval_60_200]
    simp
  have h := claim_c6_fallback [] 60 200 60 hmem (fun r _ => rfl) (fun r _ => rfl)
  exact ⟨hmem, h.1, h.2.2.1, h.2.2.2.2.2.1, h.2.2.2.2.2.2.2.1⟩

theorem sort_insert_mem {α : Type} (le : α → α → Prop) [DecidableRel le] (a b : α) :
    ∀ l, b ∈ sort_insert le a l ↔ b = a ∨ b ∈ l := by
  intro l
  induction l with
  | nil => simp [sort_insert]
  | cons c l ih =>
    by_cases h : le a c
    · simp [sort_insert, if_pos h]
    · simp [sort_insert, if_neg h, ih]
      tauto

theorem stable_sort_mem {α : Type} (le : α → α → Prop) [DecidableRel le] (b : α) :
    ∀ l, b ∈ stable_sort le l ↔ b ∈ l := by
  intro l
  induction l with
  | nil => simp [stable_sort]
  | cons a l ih =>
    simp [stable_sort, sort_insert_mem, ih]

theorem sort_insert_pairwise {α : Type} (le : α → α → Prop) [DecidableRel le]
    (htot : ∀ a b, le a b ∨ le b a) (htrans : ∀ a b c, le a b → le b c → le a c) (a : α) :
    ∀ l, l.Pairwise le → (sort_insert le a l).Pairwise le := by
  intro l
  induction l with
  | nil => intro _; simp [sort_insert]
  | cons c l ih =>
    intro hp
    obtain ⟨hc, hl⟩ := List.pairwise_cons.mp hp
    by_cases h : le a c
    · rw [sort_insert, if_pos h]
      refine List.pairwise_cons.mpr ⟨?_, hp⟩
      intro y hy
      rcases List.mem_cons.mp hy with rfl | hy
      · exact h
      · exact htrans a c y h (hc y hy)
    · rw [sort_insert, if_neg h]
      refine List.pairwise_cons.mpr ⟨?_, ih hl⟩
      intro y hy
      rcases (sort_insert_mem le a y l).mp hy with hya | hy
      · rcases htot a c with h1 | h1
        · exact absurd h1 h
        · rw [hya]; exact h1
      · exact hc y hy

theorem stable_sort_pairwise {α : Type} (le : α → α → Prop) [DecidableRel le]
    (htot : ∀ a b, le a b ∨ le b a) (htrans : ∀ a b c, le a b → le b c → le a c) :
    ∀ l : List α, (stable_sort le l).Pairwise le := by
  intro l
  induction l with
  | nil => simp [stable_sort]
  | cons a l ih => exact sort_insert_pairwise le htot htrans a _ ih

theorem cand_le_total : ∀ a b : Candidate, cand_le a b ∨ cand_le b a := by
  intro a b
  rcases lt_trichotomy a.score b.score with h | h | h
  · exact Or.inr (Or.inl h)
  · rcases le_total a.distance b.distance with hd | hd
    · exact Or.inl (Or.inr ⟨h, hd⟩)
    · exact Or.inr (Or.inr ⟨h.symm, hd⟩)
  · exact Or.inl (Or.inl h)

theorem cand_le_trans : ∀ a b c : Candidate, cand_le a b → cand_le b c → cand_le a c := by
  intro a b c hab hbc
  rcases hab with h1 | ⟨h1, d1⟩ <;> rcases hbc with h2 | ⟨h2, d2⟩
  · exact Or.inl (lt_trans h2 h1)
  · exact Or.inl (h2 ▸ h1)
  · exact Or.inl (by rw [h1]; exact h2)
  · exact Or.inr ⟨h1.trans h2, d1.trans d2⟩

theorem select_candidate_spec (cands : List Candidate) (best : Candidate)
    (h : select_candidate cands = some best) :
    best ∈ cands ∧ ∀ x ∈ cands, cand_le best x := by
  unfold select_candidate at h
  cases hs : stable_sort cand_le cands with
  | nil => rw [hs] at h; simp at h
  | cons b rest =>
    rw [hs] at h
    simp only [List.head?_cons, Option.some.injEq] at h
    subst h
    constructor
    · exact (stable_sort_mem cand_le b cands).mp (hs ▸ List.mem_cons_self b rest)
    · intro x hx
      have hx2 : x ∈ stable_sort cand_le cands := (stable_sort_mem cand_le x cands).mpr hx
      rw [hs] at hx2
      rcases List.mem_cons.mp hx2 with rfl | hx3
      · exact Or.inr ⟨rfl, le_refl _⟩
      · have hp := stable_sort_pairwise cand_le cand_le_total cand_le_trans cands
        rw [hs] at hp
        exact (List.pairwise_cons.mp hp).1 x hx3

/-- C7: on a non-empty candidate set the selection picks a candidate whose
composite score is maximal, and whose distance is minimal among candidates
of equal score; on an empty candidate set it selects nothing (it never
invents an interval). -/
theorem claim_c7_scorer (cands : List Candidate) :
    (cands = [] → select_candidate cands = none) ∧
    (∀ best, select_candidate cands = some best →
      best ∈ cands ∧ ∀ x ∈ cands, x.score ≤ best.score ∧
        (x.score = best.score → best.distance ≤ x.distance)) := by
  constructor
  · rintro rfl; rfl
  · intro best h
    obtain ⟨hmem, hle⟩ := select_candidate_spec cands best h
    refine ⟨hmem, ?_⟩
    intro x hx
    rcases hle x hx with h1 | ⟨h1, h2⟩
    · refine ⟨h1.le, fun he => ?_⟩
      rw [he] at h1
      exact absurd h1 (lt_irrefl _)
    · exact ⟨h1.symm.le, fun _ => h2⟩

theorem claim_c7_witness :
    select_candidate [c7_cand1, c7_cand2] = some c7_cand2 ∧
    c7_cand2 ∈ [c7_cand1, c7_cand2] ∧
    c7_cand1.score ≤ c7_cand2.score ∧
    c7_cand2.distance ≤ c7_cand1.distance := by
  have hsel : select_candidate [c7_cand1, c7_cand2] = some c7_cand2 := by
    norm_num [select_candidate, stable_sort, sort_insert, cand_le, c7_cand1, c7_cand2]
  have h := (claim_c7_scorer [c7_cand1, c7_cand2]).2 c7_cand2 hsel
  refine ⟨hsel, h.1, (h.2 c7_cand1 (by simp)).1, (h.2 c7_cand1 (by simp)).2 rfl⟩

theorem method3_length (upload : ℕ → Except String Unit) :
    ∀ (rows : List UploadRow) (k : ℕ),
      (method3_upload_from_excel upload k rows).length = rows.length := by
  intro rows
  induction rows with
  | nil => intro k; rfl
  | cons r rs ih =>
    intro k
    simp only [method3_upload_from_excel, List.length_cons, ih]

theorem method3_get (upload : ℕ → Except String Unit) :
    ∀ (rows : List UploadRow) (k i : ℕ)
      (h1 : i < (method3_upload_from_excel upload k rows).length) (h2 : i < rows.length),
      (method3_upload_from_excel upload k rows).get ⟨i, h1⟩ =
        row_outcome upload (k + i) (rows.get ⟨i, h2⟩) := by
  intro rows
  induction rows with
  | nil => intro k i h1 h2; simp at h2
  | cons r rs ih =>
    intro k i h1 h2
    cases i with
    | zero => rfl
    | succ n =>
      have h1n : n < (method3_upload_from_excel upload (k + 1) rs).length := by
        have := h1
        simp only [method3_upload_from_excel, List.length_cons] at this
        omega
      have h2n : n < rs.length := by
        simp only [List.length_cons] at h2
        omega
      show (method3_upload_from_excel upload (k + 1) rs).get ⟨n, _⟩ =
        row_outcome upload (k + (n + 1)) (rs.get ⟨n, _⟩)
      rw [ih (k + 1) n h1n h2n]
      congr 1
      omega

/-- C8: the batch row loop visits every spreadsheet row in index order and
records one outcome per row; the outcome of row `i` is a function of row
`i` and its own upload attempt alone, so an exception or failure on one
row never prevents the attempt of any later row. -/
theorem claim_c8_batch_isolation (upload : ℕ → Except String Unit) (rows : List UploadRow)
    (i : ℕ) (h1 : i < (method3_upload_from_excel upload 0 rows).length)
    (h2 : i < rows.length) :
    (method3_upload_from_excel upload 0 rows).length = rows.length ∧
    (method3_upload_from_excel upload 0 rows).get ⟨i, h1⟩ =
      row_outcome upload i (rows.get ⟨i, h2⟩) := by
  refine ⟨method3_length upload rows 0, ?_⟩
  have h := method3_get upload rows 0 i h1 h2
  simpa using h

theorem claim_c8_witness :
    (method3_upload_from_excel c8_upload 0 c8_rows).length = 2 ∧
    (method3_upload_from_excel c8_upload 0 c8_rows)[0]? = some "Error: boom" ∧
    (method3_upload_from_excel c8_upload 0 c8_rows)[1]? = some "Done" := by
  have hv : method3_upload_from_excel c8_upload 0 c8_rows = ["Error: boom", "Done"] := by
    decide
  have h1 : 1 < (method3_upload_from_excel c8_upload 0 c8_rows).length := by
    rw [hv]
    norm_num
  have h2 : 1 < c8_rows.length := by
    norm_num [c8_rows]
  have h := claim_c8_batch_isolation c8_upload c8_rows 1 h1 h2
  refine ⟨h.1.trans (by norm_num [c8_rows]), ?_, ?_⟩
  · rw [hv]; rfl
  · rw [hv]; rfl

theorem plan_none_cutPoints (resolve : ℚ → CutPoint) (sourcePath : String) (D I : ℚ) :
    (plan_with_resume resolve sourcePath D I none).cutPoints =
      (target_points I D).map resolve := by
  simp [plan_with_resume]

theorem plan_cutPoints_some (resolve : ℚ → CutPoint) (sourcePath : String) (D I : ℚ)
    (st : ProgressState) (h : progress_matches st sourcePath D = true) :
    (plan_with_resume resolve sourcePath D I (some st)).cutPoints =
      st.completedCutPoints ++
        ((target_points I D).drop st.completedCutPoints.length).map resolve := by
  simp [plan_with_resume, h]

theorem plan_segments_eq (resolve : ℚ → CutPoint) (sourcePath : String) (D I : ℚ)
    (saved : Option ProgressState) :
    (plan_with_resume resolve sourcePath D I saved).segments =
      generate_cut_segments (plan_with_resume resolve sourcePath D I saved).cutPoints D := rfl

theorem CutPlan_ext (p q : CutPlan) (h1 : p.sourcePath = q.sourcePath)
    (h2 : p.totalDuration = q.totalDuration) (h3 : p.targetIntervalSec = q.targetIntervalSec)
    (h4 : p.cutPoints = q.cutPoints) (h5 : p.segments = q.segments) : p = q := by
  cases p
  cases q
  rw [CutPlan.mk.injEq]
  exact ⟨h1, h2, h3, h4, h5⟩

/-- C3: resuming the (spec-modelled) planner from a persisted
`ProgressState` holding a strict prefix of `k` completed cut points yields
a final `CutPlan` identical to the uninterrupted run for the same source
and parameters; the first `k` resolutions are skipped since resolution
continues from `len(completedCutPoints)`. -/
theorem claim_c3_resume_prefix (resolve : ℚ → CutPoint) (sourcePath : String) (D I : ℚ)
    (k : ℕ) (hk : k < (plan_with_resume resolve sourcePath D I none).cutPoints.length) :
    plan_with_resume resolve sourcePath D I
        (some { sourcePath := sourcePath, totalDuration := D, targetIntervalSec := I,
                completedCutPoints :=
                  (plan_with_resume resolve sourcePath D I none).cutPoints.take k }) =
      plan_with_resume resolve sourcePath D I none := by
  have hfull := plan_none_cutPoints resolve sourcePath D I
  have hk2 : k ≤ (target_points I D).length := by
    rw [hfull] at hk
    simp only [List.length_map] at hk
    omega
  have hmatch : progress_matches
      { sourcePath := sourcePath, totalDuration := D, targetIntervalSec := I,
        completedCutPoints :=
          (plan_with_resume resolve sourcePath D I none).cutPoints.take k }
      sourcePath D = true := by
    simp [progress_matches]
  have hpts : (plan_with_resume resolve sourcePath D I
      (some { sourcePath := sourcePath, totalDuration := D, targetIntervalSec := I,
              completedCutPoints :=
                (plan_with_resume resolve sourcePath D I none).cutPoints.take k })).cutPoints =
      (plan_with_resume resolve sourcePath D I none).cutPoints := by
    rw [plan_cutPoints_some resolve sourcePath D I _ hmatch]
    rw [hfull]
    show ((target_points I D).map resolve).take k ++
      ((target_points I D).drop (((target_points I D).map resolve).take k).length).map resolve =
      (target_points I D).map resolve
    rw [List.length_take, List.length_map, min_eq_left hk2, ← List.map_take,
      ← List.map_append, List.take_append_drop]
  refine CutPlan_ext _ _ rfl rfl rfl hpts ?_
  rw [plan_segments_eq, plan_segments_eq, hpts]

theorem tp_eval_1800_3700 : target_points 1800 3700 = [1800, 3600] := by
  rw [target_points, tp_aux, dif_pos (by norm_num), tp_aux, dif_pos (by norm_num),
    tp_aux, dif_neg (by norm_num)]
  norm_num

theorem claim_c3_witness :
    1 < (plan_with_resume c3_resolve "video.mp4" 3700 1800 none).cutPoints.length ∧
    plan_with_resume c3_resolve "video.mp4" 3700 1800
        (some { sourcePath := "video.mp4", totalDuration := 3700, targetIntervalSec := 1800,
                completedCutPoints :=
                  (plan_with_resume c3_resolve "video.mp4" 3700 1800 none).cutPoints.take 1 }) =
      plan_with_resume c3_resolve "video.mp4" 3700 1800 none := by
  have hlen : 1 < (plan_with_resume c3_resolve "video.mp4" 3700 1800 none).cutPoints.length := by
    rw [plan_none_cutPoints, tp_eval_1800_3700]
    norm_num
  exact ⟨hlen, claim_c3_resume_prefix c3_resolve "video.mp4" 3700 1800 1 hlen⟩
